import Mathlib

/-!
Shallow embedding of `src/zmqtulip/core.py` (the `Socket` adapter of
pyzmqtulip): the asynchronous send path (`Socket.send`, `Socket._send_ready`
with its pending-write deque `self._buffer`), the asynchronous receive path
(`Socket.recv`, `Socket._recv`), and the loop-registration bookkeeping
(`add_writer` / `remove_writer` / `add_reader` / `remove_reader`).

The underlying zmq transport is an external collaborator; its behaviour is
supplied to every model function as an oracle list that is consumed one
element per underlying `super().send` / `super().recv` call, mirroring the
sequence of outcomes the real socket would produce.  Completion handles
(tulip/asyncio futures) are modelled by an explicit state with the asyncio
settle semantics: `set_result` / `set_exception` settle a pending future and
raise `InvalidStateError` on any other state.
-/

set_option linter.unusedVariables false

namespace Zmqtulip

/-- The `zmq.NOBLOCK` flag bit (pyzmq: `zmq.NOBLOCK = zmq.DONTWAIT = 1`). -/
def NOBLOCK : Nat := 1

/-- The errno carried by a would-block `zmq.ZMQError` (`zmq.EAGAIN = 11`). -/
def EAGAIN : Nat := 11

/-- Message payloads: immutable byte sequences. -/
abbrev Bytes := List Nat

/-- Python exception values the adapter raises or stores on a future. -/
inductive PyErr where
  | zmq (errno : Nat)
  | invalidState
  | generic (code : Nat)
  deriving DecidableEq, Repr

/-- States of a tulip/asyncio future used as a send completion handle. -/
inductive FutState where
  | pending
  | cancelled
  | fulfilled (res : Nat)
  | failed (err : PyErr)
  deriving DecidableEq, Repr

/-- `fut.set_result(n)`: settles a pending future; on any other state asyncio
raises `InvalidStateError` (signalled by a `true` second component, future
state unchanged). -/
def FutState.setRes : FutState → Nat → FutState × Bool
  | FutState.pending, n => (FutState.fulfilled n, false)
  | f, _ => (f, true)

/-- `fut.set_exception(e)`: settles a pending future with an error; on any
other state asyncio raises `InvalidStateError`. -/
def FutState.setExc : FutState → PyErr → FutState × Bool
  | FutState.pending, e => (FutState.failed e, false)
  | f, _ => (f, true)

/-- Whether a future is still pending. -/
def FutState.isPending : FutState → Bool
  | FutState.pending => true
  | _ => false

/-- One element of `Socket._buffer`: the tuple
`(fut, data, flags, copy, track)` appended by `Socket.send`, tagged with the
numeric identity of its future (futures are numbered in creation order). -/
structure Entry where
  futId : Nat
  fut : FutState
  data : Bytes
  flags : Nat
  copy : Bool
  track : Bool
  deriving DecidableEq, Repr

/-- Outcome of one underlying `zmq.Socket.send` call: a returned value, a
`zmq.ZMQError` with some errno (errno `EAGAIN` is the would-block signal), or
a non-ZMQError exception. -/
inductive SendRes where
  | ok (n : Nat)
  | zmqErr (errno : Nat)
  | exn (code : Nat)
  deriving DecidableEq, Repr

/-- State of one `Socket` adapter together with the observable history of the
run: `nextFut` numbers the next future to be created, `buffer` is
`self._buffer` (head = left end of the deque), `writerRegs` / `readerRegs`
count the active loop registrations for the socket descriptor (asyncio
`add_writer` replaces an existing registration for the same descriptor, so
`add_writer` sets the count to 1 and `remove_writer` to 0), `oracle` is the
remaining transport behaviour, `trace` records the future id of every
underlying send call in order, `retired` collects every future that left the
adapter's hands (settled by a drain, settled or abandoned by the fast path)
with its final state, `raisedCnt` counts exceptions that escaped into the
caller of a loop callback, and `closed` mirrors the underlying transport
handle. -/
structure Sys where
  nextFut : Nat
  buffer : List Entry
  writerRegs : Nat
  readerRegs : Nat
  oracle : List SendRes
  trace : List Nat
  retired : List Entry
  raisedCnt : Nat
  closed : Bool
  deriving DecidableEq, Repr

/-- Result of one pass of `Socket._send_ready` over the buffer. -/
structure DrainOut where
  buffer : List Entry
  oracle : List SendRes
  attempts : List Nat
  settled : List Entry
  removedWriter : Bool
  raised : Bool
  deriving DecidableEq, Repr

/-- The drain loop of `Socket._send_ready`: while the buffer is non-empty,
pop the head entry, attempt its underlying send, and
  * on success call `fut.set_result` and continue with the next entry
    (a `set_result` on a non-pending future raises `InvalidStateError`,
    which the `except Exception` arm turns into a `fut.set_exception` that
    itself raises out of the callback);
  * on a `zmq.ZMQError` with errno other than `EAGAIN`, fail the entry's
    future and stop;
  * on `EAGAIN`, push the entry back on the head of the deque
    (`appendleft`) and stop;
  * on any other exception, fail the entry's future and stop.
Only when the loop exhausts the buffer is `remove_writer` reached. -/
def sendReadyAux : List SendRes → List Entry → DrainOut
  | ρ, [] => ⟨[], ρ, [], [], true, false⟩
  | ρ, e :: rest =>
    match ρ.headD (SendRes.zmqErr EAGAIN) with
    | SendRes.ok n =>
      match e.fut.setRes n with
      | (f, false) =>
        let o := sendReadyAux ρ.tail rest
        ⟨o.buffer, o.oracle, e.futId :: o.attempts,
          { e with fut := f } :: o.settled, o.removedWriter, o.raised⟩
      | (f, true) =>
        match f.setExc PyErr.invalidState with
        | (f2, rz2) => ⟨rest, ρ.tail, [e.futId], [{ e with fut := f2 }], false, rz2⟩
    | SendRes.zmqErr errno =>
      if errno ≠ EAGAIN then
        match e.fut.setExc (PyErr.zmq errno) with
        | (f, rz) => ⟨rest, ρ.tail, [e.futId], [{ e with fut := f }], false, rz⟩
      else
        ⟨e :: rest, ρ.tail, [e.futId], [], false, false⟩
    | SendRes.exn code =>
      match e.fut.setExc (PyErr.generic code) with
      | (f, rz) => ⟨rest, ρ.tail, [e.futId], [{ e with fut := f }], false, rz⟩

/-- `Socket._send_ready`, the write-readiness callback: run the drain loop
over the buffer and apply its effects to the adapter state. -/
def Socket._send_ready (s : Sys) : Sys :=
  let o := sendReadyAux s.oracle s.buffer
  { s with
    buffer := o.buffer
    oracle := o.oracle
    trace := s.trace ++ o.attempts
    retired := s.retired ++ o.settled
    writerRegs := if o.removedWriter then 0 else s.writerRegs
    raisedCnt := s.raisedCnt + (if o.raised then 1 else 0) }

/-- The `data` argument to `Socket.send`: a bytes object or anything else
(the latter fails the `assert isinstance(data, bytes)` guard). -/
inductive SendArg where
  | bytes (b : Bytes)
  | notBytes
  deriving DecidableEq, Repr

/-- What `Socket.send` gives back to its caller. -/
inductive SendRet where
  | noneRet
  | futRet (id : Nat)
  | assertFail
  | raisedErr (e : PyErr)
  deriving DecidableEq, Repr

/-- `Socket.send(data, flags, copy, track)`.  Mirrors the source line by
line: assert bytes; empty payload returns `None`; with an empty buffer run
the fast path (a NOBLOCK-flagged call attempts once and lets any error
propagate; otherwise `NOBLOCK` is or-ed in, success fulfils and returns the
future, a non-EAGAIN `ZMQError` records the error on the future and returns
bare `None`, `EAGAIN` arms the write callback and queues, a non-ZMQError
exception propagates); with a non-empty buffer the entry is appended at the
tail with the caller's flags unchanged. -/
def Socket.send (s : Sys) (data : SendArg) (flags : Nat) (copy track : Bool) :
    SendRet × Sys :=
  match data with
  | SendArg.notBytes => (SendRet.assertFail, s)
  | SendArg.bytes b =>
    if b = [] then (SendRet.noneRet, s)
    else if s.buffer = [] then
      if flags &&& NOBLOCK ≠ 0 then
        match s.oracle.headD (SendRes.zmqErr EAGAIN) with
        | SendRes.ok n =>
          (SendRet.futRet s.nextFut,
           { s with nextFut := s.nextFut + 1, oracle := s.oracle.tail,
                    trace := s.trace ++ [s.nextFut],
                    retired := s.retired ++
                      [⟨s.nextFut, FutState.fulfilled n, b, flags, copy, track⟩] })
        | SendRes.zmqErr errno =>
          (SendRet.raisedErr (PyErr.zmq errno),
           { s with nextFut := s.nextFut + 1, oracle := s.oracle.tail,
                    trace := s.trace ++ [s.nextFut],
                    retired := s.retired ++
                      [⟨s.nextFut, FutState.pending, b, flags, copy, track⟩] })
        | SendRes.exn code =>
          (SendRet.raisedErr (PyErr.generic code),
           { s with nextFut := s.nextFut + 1, oracle := s.oracle.tail,
                    trace := s.trace ++ [s.nextFut],
                    retired := s.retired ++
                      [⟨s.nextFut, FutState.pending, b, flags, copy, track⟩] })
      else
        match s.oracle.headD (SendRes.zmqErr EAGAIN) with
        | SendRes.ok n =>
          (SendRet.futRet s.nextFut,
           { s with nextFut := s.nextFut + 1, oracle := s.oracle.tail,
                    trace := s.trace ++ [s.nextFut],
                    retired := s.retired ++
                      [⟨s.nextFut, FutState.fulfilled n, b,
                        flags ||| NOBLOCK, copy, track⟩] })
        | SendRes.zmqErr errno =>
          if errno ≠ EAGAIN then
            (SendRet.noneRet,
             { s with nextFut := s.nextFut + 1, oracle := s.oracle.tail,
                      trace := s.trace ++ [s.nextFut],
                      retired := s.retired ++
                        [⟨s.nextFut, FutState.failed (PyErr.zmq errno), b,
                          flags ||| NOBLOCK, copy, track⟩] })
          else
            (SendRet.futRet s.nextFut,
             { s with nextFut := s.nextFut + 1, oracle := s.oracle.tail,
                      trace := s.trace ++ [s.nextFut],
                      writerRegs := 1,
                      buffer := s.buffer ++
                        [⟨s.nextFut, FutState.pending, b,
                          flags ||| NOBLOCK, copy, track⟩] })
        | SendRes.exn code =>
          (SendRet.raisedErr (PyErr.generic code),
           { s with nextFut := s.nextFut + 1, oracle := s.oracle.tail,
                    trace := s.trace ++ [s.nextFut],
                    retired := s.retired ++
                      [⟨s.nextFut, FutState.pending, b,
                        flags ||| NOBLOCK, copy, track⟩] })
    else
      (SendRet.futRet s.nextFut,
       { s with nextFut := s.nextFut + 1,
                buffer := s.buffer ++
                  [⟨s.nextFut, FutState.pending, b, flags, copy, track⟩] })

/-- Closing the adapter.  The repository's `Socket` defines no `close`
override, so closing falls through to the inherited transport close, which
releases the transport handle only: no code in the repository touches the
pending-write buffer, any outstanding future, or the loop registrations on
close. -/
def Socket.close (s : Sys) : Sys := { s with closed := true }

/-- The caller cancels the future with the given id: an asyncio `cancel()`
moves a pending future to cancelled and is a no-op on settled futures.  The
buffer entry keeps referencing the (now cancelled) future. -/
def Sys.cancel (s : Sys) (id : Nat) : Sys :=
  { s with buffer := s.buffer.map fun e =>
      if e.futId = id && e.fut.isPending then { e with fut := FutState.cancelled } else e }

/-- Externally visible stimuli on one adapter: a `send` call, a
write-readiness firing of the loop (which invokes `_send_ready` only while
the callback is registered), or a caller cancelling a queued send's future. -/
inductive Event where
  | sendCall (data : SendArg) (flags : Nat) (copy track : Bool)
  | writeReady
  | cancelFut (id : Nat)
  deriving DecidableEq, Repr

/-- One stimulus applied to the adapter state. -/
def stepEv (s : Sys) : Event → Sys
  | Event.sendCall d f c t => (Socket.send s d f c t).2
  | Event.writeReady => if s.writerRegs ≠ 0 then Socket._send_ready s else s
  | Event.cancelFut id => s.cancel id

/-- A whole run: apply the stimuli in order. -/
def runEvents (s : Sys) : List Event → Sys
  | [] => s
  | ev :: evs => runEvents (stepEv s ev) evs

/-- A freshly constructed adapter facing a transport that will behave as
`ρ` prescribes. -/
def initSys (ρ : List SendRes) : Sys := ⟨0, [], 0, 0, ρ, [], [], 0, false⟩

/-- Outcome of one underlying `zmq.Socket.recv` call. -/
inductive RecvRes where
  | ok (d : Bytes)
  | zmqErr (errno : Nat)
  | exn (code : Nat)
  deriving DecidableEq, Repr

/-- State of the future created for one deferred receive. -/
inductive RFut where
  | pending
  | cancelled
  | fulfilled (d : Bytes)
  | failed (err : PyErr)
  deriving DecidableEq, Repr

/-- `fut.set_result(d)` for a receive future (asyncio semantics as in
`FutState.setRes`). -/
def RFut.setRes : RFut → Bytes → RFut × Bool
  | RFut.pending, d => (RFut.fulfilled d, false)
  | f, _ => (f, true)

/-- `fut.set_exception(e)` for a receive future. -/
def RFut.setExc : RFut → PyErr → RFut × Bool
  | RFut.pending, e => (RFut.failed e, false)
  | f, _ => (f, true)

/-- `fut.cancelled()`. -/
def RFut.isCancelled : RFut → Bool
  | RFut.cancelled => true
  | _ => false

/-- State of one receive operation: its future, the active read registration
count for the descriptor (`add_reader` replaces, so registration sets it to
1 and `remove_reader` to 0), the remaining transport behaviour, and the
observable counters — underlying receive attempts, total `add_reader` calls,
total `remove_reader` calls, and whether an exception escaped a callback. -/
structure RecvSt where
  fut : RFut
  readerRegs : Nat
  oracle : List RecvRes
  attempts : Nat
  regs : Nat
  removals : Nat
  raised : Bool
  deriving DecidableEq, Repr

/-- `Socket._recv(fut, registered, *args)`: when invoked from a readiness
firing (`registered = true`) first `remove_reader`; if the future was
cancelled, return without touching the transport; otherwise attempt the
underlying receive once — success fulfils the future, a non-EAGAIN
`ZMQError` fails it, `EAGAIN` re-arms the read callback (`add_reader`), and
any other exception fails it.  The `*args` tuple (flags with `NOBLOCK`
forced, copy, track) is threaded through unchanged by the source and its
effect on the transport is delegated to the oracle. -/
def Socket._recv (registered : Bool) (s : RecvSt) : RecvSt :=
  let s1 := if registered then
      { s with readerRegs := 0, removals := s.removals + 1 }
    else s
  if s1.fut.isCancelled then s1
  else
    let s2 := { s1 with oracle := s1.oracle.tail, attempts := s1.attempts + 1 }
    match s1.oracle.headD (RecvRes.zmqErr EAGAIN) with
    | RecvRes.ok d =>
      match s2.fut.setRes d with
      | (f, rz) => { s2 with fut := f, raised := s2.raised || rz }
    | RecvRes.zmqErr errno =>
      if errno ≠ EAGAIN then
        match s2.fut.setExc (PyErr.zmq errno) with
        | (f, rz) => { s2 with fut := f, raised := s2.raised || rz }
      else
        { s2 with readerRegs := 1, regs := s2.regs + 1 }
    | RecvRes.exn code =>
      match s2.fut.setExc (PyErr.generic code) with
      | (f, rz) => { s2 with fut := f, raised := s2.raised || rz }

/-- The event loop firing the armed read callback: while the registration is
active (and firings remain available), invoke `_recv` with
`registered = True`. -/
def recvFirings : Nat → RecvSt → RecvSt
  | 0, s => s
  | fuel + 1, s =>
    if s.readerRegs ≠ 0 then recvFirings fuel (Socket._recv true s) else s

/-- What `Socket.recv` does from its caller's point of view: a value
returned synchronously, an exception raised synchronously, or a suspension
on the created future (whose fate is then read off the final `RecvSt`). -/
inductive RecvRet where
  | val (d : Bytes)
  | raised (e : PyErr)
  | deferred
  deriving DecidableEq, Repr

/-- `Socket.recv(flags, copy, track)`.  A caller-supplied `NOBLOCK` flag
short-circuits to a single underlying attempt whose outcome (value or
exception, including `EAGAIN`) passes straight through.  Otherwise `NOBLOCK`
is forced into the flags and one immediate attempt is made: success returns
the payload, a non-EAGAIN `ZMQError` is re-raised, and on `EAGAIN` a future
is created and `_recv(fut, False, *args)` is invoked directly — a second
immediate attempt — before the operation suspends on the future and is
driven by up to `fuel` readiness firings. -/
def Socket.recv (flags : Nat) (copy track : Bool) (ρ : List RecvRes)
    (fuel : Nat) : RecvRet × RecvSt :=
  if flags &&& NOBLOCK ≠ 0 then
    match ρ.headD (RecvRes.zmqErr EAGAIN) with
    | RecvRes.ok d => (RecvRet.val d, ⟨RFut.pending, 0, ρ.tail, 1, 0, 0, false⟩)
    | RecvRes.zmqErr errno =>
      (RecvRet.raised (PyErr.zmq errno), ⟨RFut.pending, 0, ρ.tail, 1, 0, 0, false⟩)
    | RecvRes.exn code =>
      (RecvRet.raised (PyErr.generic code), ⟨RFut.pending, 0, ρ.tail, 1, 0, 0, false⟩)
  else
    match ρ.headD (RecvRes.zmqErr EAGAIN) with
    | RecvRes.ok d => (RecvRet.val d, ⟨RFut.pending, 0, ρ.tail, 1, 0, 0, false⟩)
    | RecvRes.zmqErr errno =>
      if errno ≠ EAGAIN then
        (RecvRet.raised (PyErr.zmq errno), ⟨RFut.pending, 0, ρ.tail, 1, 0, 0, false⟩)
      else
        (RecvRet.deferred,
         recvFirings fuel
           (Socket._recv false ⟨RFut.pending, 0, ρ.tail, 1, 0, 0, false⟩))
    | RecvRes.exn code =>
      (RecvRet.raised (PyErr.generic code), ⟨RFut.pending, 0, ρ.tail, 1, 0, 0, false⟩)

/-- Appending a dominating element on the right preserves a `≤`-sorted list. -/
theorem pairwise_le_snoc {l : List Nat} {x : Nat} (hl : l.Pairwise (· ≤ ·))
    (h : ∀ t ∈ l, t ≤ x) : (l ++ [x]).Pairwise (· ≤ ·) := by
  rw [List.pairwise_append]
  exact ⟨hl, List.pairwise_singleton _ _, by simpa using h⟩

/-- Appending a strictly dominating element on the right preserves a
`<`-sorted list. -/
theorem pairwise_lt_snoc {l : List Nat} {x : Nat} (hl : l.Pairwise (· < ·))
    (h : ∀ t ∈ l, t < x) : (l ++ [x]).Pairwise (· < ·) := by
  rw [List.pairwise_append]
  exact ⟨hl, List.pairwise_singleton _ _, by simpa using h⟩

/-- Structure of one drain pass over a buffer with strictly increasing future
ids: the attempted ids all come from the buffer, the surviving buffer is a
sublist of the original (so queued entries are never reordered), the attempted
ids are strictly increasing, and every attempted id is at most every id still
queued afterwards. -/
theorem sendReadyAux_spec (B : List Entry) (ρ : List SendRes)
    (hB : (B.map Entry.futId).Pairwise (· < ·)) :
    (∀ a ∈ (sendReadyAux ρ B).attempts, a ∈ B.map Entry.futId)
    ∧ List.Sublist (sendReadyAux ρ B).buffer B
    ∧ (sendReadyAux ρ B).attempts.Pairwise (· < ·)
    ∧ (∀ a ∈ (sendReadyAux ρ B).attempts,
        ∀ e ∈ (sendReadyAux ρ B).buffer, a ≤ e.futId) := by
  induction B generalizing ρ with
  | nil => simp [sendReadyAux]
  | cons e rest ih =>
    rw [List.map_cons, List.pairwise_cons] at hB
    obtain ⟨hhd, htl⟩ := hB
    rcases hr : ρ.headD (SendRes.zmqErr EAGAIN) with n | errno | code
    · rcases hf : e.fut.setRes n with ⟨f, rz⟩
      cases rz with
      | false =>
        obtain ⟨ih1, ih2, ih3, ih4⟩ := ih ρ.tail htl
        simp only [sendReadyAux, hr, hf]
        refine ⟨?_, ih2.cons e, ?_, ?_⟩
        · intro a ha
          rcases List.mem_cons.1 ha with h | h
          · simp [h]
          · exact List.mem_cons_of_mem _ (ih1 a h)
        · exact List.pairwise_cons.2 ⟨fun a ha => hhd a (ih1 a ha), ih3⟩
        · intro a ha e2 he2
          rcases List.mem_cons.1 ha with h | h
          · subst h
            exact le_of_lt (hhd e2.futId (List.mem_map_of_mem _ (ih2.mem he2)))
          · exact ih4 a h e2 he2
      | true =>
        rcases hx : f.setExc PyErr.invalidState with ⟨f2, rz2⟩
        simp only [sendReadyAux, hr, hf, hx]
        refine ⟨by simp, List.sublist_cons_self e rest, List.pairwise_singleton _ _, ?_⟩
        intro a ha e2 he2
        simp only [List.mem_singleton] at ha
        subst ha
        exact le_of_lt (hhd e2.futId (List.mem_map_of_mem _ he2))
    · by_cases he : errno = EAGAIN
      · simp only [sendReadyAux, hr, he, ne_eq, not_true_eq_false, if_false]
        refine ⟨by simp, List.Sublist.refl _, List.pairwise_singleton _ _, ?_⟩
        intro a ha e2 he2
        simp only [List.mem_singleton] at ha
        subst ha
        rcases List.mem_cons.1 he2 with h | h
        · simp [h]
        · exact le_of_lt (hhd e2.futId (List.mem_map_of_mem _ h))
      · rcases hx : e.fut.setExc (PyErr.zmq errno) with ⟨f, rz⟩
        simp only [sendReadyAux, hr, ne_eq, he, not_false_eq_true, if_true, hx]
        refine ⟨by simp, List.sublist_cons_self e rest, List.pairwise_singleton _ _, ?_⟩
        intro a ha e2 he2
        simp only [List.mem_singleton] at ha
        subst ha
        exact le_of_lt (hhd e2.futId (List.mem_map_of_mem _ he2))
    · rcases hx : e.fut.setExc (PyErr.generic code) with ⟨f, rz⟩
      simp only [sendReadyAux, hr, hx]
      refine ⟨by simp, List.sublist_cons_self e rest, List.pairwise_singleton _ _, ?_⟩
      intro a ha e2 he2
      simp only [List.mem_singleton] at ha
      subst ha
      exact le_of_lt (hhd e2.futId (List.mem_map_of_mem _ he2))

/-- The run invariant behind the FIFO guarantee: the attempt trace is
monotone in future (= submission) order, the buffer holds strictly
increasing future ids, everything ever attempted is at most everything still
queued, and both are bounded by the next future id to be handed out. -/
structure SysInv (s : Sys) : Prop where
  traceMono : s.trace.Pairwise (· ≤ ·)
  bufInc : (s.buffer.map Entry.futId).Pairwise (· < ·)
  traceBuf : ∀ t ∈ s.trace, ∀ e ∈ s.buffer, t ≤ e.futId
  bufLt : ∀ e ∈ s.buffer, e.futId < s.nextFut
  traceLt : ∀ t ∈ s.trace, t < s.nextFut

theorem sysInv_init (ρ : List SendRes) : SysInv (initSys ρ) := by
  constructor <;> simp [initSys]

theorem sysInv_send (s : Sys) (d : SendArg) (fl : Nat) (c t : Bool)
    (h : SysInv s) : SysInv (Socket.send s d fl c t).2 := by
  obtain ⟨h1, h2, h3, h4, h5⟩ := h
  have hfast : ∀ (ρ2 : List SendRes) (r2 : List Entry),
      s.buffer = [] →
      SysInv { s with nextFut := s.nextFut + 1, oracle := ρ2,
                      trace := s.trace ++ [s.nextFut], retired := r2 } := by
    intro ρ2 r2 hbuf
    refine ⟨?_, ?_, ?_, ?_, ?_⟩
    · show (s.trace ++ [s.nextFut]).Pairwise (· ≤ ·)
      exact pairwise_le_snoc h1 fun t ht => le_of_lt (h5 t ht)
    · show (s.buffer.map Entry.futId).Pairwise (· < ·)
      exact h2
    · show ∀ t ∈ s.trace ++ [s.nextFut], ∀ e ∈ s.buffer, t ≤ e.futId
      rw [hbuf]
      simp
    · show ∀ e ∈ s.buffer, e.futId < s.nextFut + 1
      intro e he
      exact Nat.lt_succ_of_lt (h4 e he)
    · show ∀ t ∈ s.trace ++ [s.nextFut], t < s.nextFut + 1
      intro t ht
      rcases List.mem_append.1 ht with hz | hz
      · exact Nat.lt_succ_of_lt (h5 t hz)
      · simp only [List.mem_singleton] at hz
        exact hz ▸ Nat.lt_succ_self _
  have henq : ∀ (ρ2 : List SendRes) (w : Nat) (en : Entry),
      en.futId = s.nextFut →
      s.buffer = [] →
      SysInv { s with nextFut := s.nextFut + 1, oracle := ρ2,
                      trace := s.trace ++ [s.nextFut], writerRegs := w,
                      buffer := s.buffer ++ [en] } := by
    intro ρ2 w en hen hbuf
    refine ⟨?_, ?_, ?_, ?_, ?_⟩
    · show (s.trace ++ [s.nextFut]).Pairwise (· ≤ ·)
      exact pairwise_le_snoc h1 fun t ht => le_of_lt (h5 t ht)
    · show ((s.buffer ++ [en]).map Entry.futId).Pairwise (· < ·)
      rw [hbuf]
      simp
    · show ∀ t ∈ s.trace ++ [s.nextFut], ∀ e ∈ s.buffer ++ [en], t ≤ e.futId
      intro t ht e he
      simp only [hbuf, List.nil_append, List.mem_singleton] at he
      subst he
      rw [hen]
      rcases List.mem_append.1 ht with hz | hz
      · exact le_of_lt (h5 t hz)
      · simp only [List.mem_singleton] at hz
        exact le_of_eq hz
    · show ∀ e ∈ s.buffer ++ [en], e.futId < s.nextFut + 1
      intro e he
      simp only [hbuf, List.nil_append, List.mem_singleton] at he
      subst he
      rw [hen]
      exact Nat.lt_succ_self _
    · show ∀ t ∈ s.trace ++ [s.nextFut], t < s.nextFut + 1
      intro t ht
      rcases List.mem_append.1 ht with hz | hz
      · exact Nat.lt_succ_of_lt (h5 t hz)
      · simp only [List.mem_singleton] at hz
        exact hz ▸ Nat.lt_succ_self _
  have htail : ∀ (en : Entry), en.futId = s.nextFut →
      SysInv { s with nextFut := s.nextFut + 1, buffer := s.buffer ++ [en] } := by
    intro en hen
    refine ⟨?_, ?_, ?_, ?_, ?_⟩
    · show s.trace.Pairwise (· ≤ ·)
      exact h1
    · show ((s.buffer ++ [en]).map Entry.futId).Pairwise (· < ·)
      rw [List.map_append]
      refine pairwise_lt_snoc h2 ?_
      intro x hx
      rcases List.mem_map.1 hx with ⟨e, he, rfl⟩
      rw [hen]
      exact h4 e he
    · show ∀ t ∈ s.trace, ∀ e ∈ s.buffer ++ [en], t ≤ e.futId
      intro t ht e he
      rcases List.mem_append.1 he with hz | hz
      · exact h3 t ht e hz
      · simp only [List.mem_singleton] at hz
        subst hz
        rw [hen]
        exact le_of_lt (h5 t ht)
    · show ∀ e ∈ s.buffer ++ [en], e.futId < s.nextFut + 1
      intro e he
      rcases List.mem_append.1 he with hz | hz
      · exact Nat.lt_succ_of_lt (h4 e hz)
      · simp only [List.mem_singleton] at hz
        subst hz
        rw [hen]
        exact Nat.lt_succ_self _
    · show ∀ t ∈ s.trace, t < s.nextFut + 1
      intro t ht
      exact Nat.lt_succ_of_lt (h5 t ht)
  rcases d with b | _
  · simp only [Socket.send]
    split
    · exact ⟨h1, h2, h3, h4, h5⟩
    · split
      · rename_i hb hbuf
        split
        · split
          · exact hfast _ _ hbuf
          · exact hfast _ _ hbuf
          · exact hfast _ _ hbuf
        · split
          · exact hfast _ _ hbuf
          · split
            · exact hfast _ _ hbuf
            · exact henq _ _ _ rfl hbuf
          · exact hfast _ _ hbuf
      · exact htail _ rfl
  · exact ⟨h1, h2, h3, h4, h5⟩

theorem sysInv_ready (s : Sys) (h : SysInv s) : SysInv (Socket._send_ready s) := by
  obtain ⟨sp1, sp2, sp3, sp4⟩ := sendReadyAux_spec s.buffer s.oracle h.bufInc
  constructor
  · refine List.pairwise_append.2 ⟨h.traceMono, sp3.imp le_of_lt, ?_⟩
    intro t ht a ha
    rcases List.mem_map.1 (sp1 a ha) with ⟨e, he, rfl⟩
    exact h.traceBuf t ht e he
  · exact h.bufInc.sublist (sp2.map Entry.futId)
  · intro t ht e he
    rcases List.mem_append.1 ht with hz | hz
    · exact h.traceBuf t hz e (sp2.mem he)
    · exact sp4 t hz e he
  · intro e he
    exact h.bufLt e (sp2.mem he)
  · intro t ht
    rcases List.mem_append.1 ht with hz | hz
    · exact h.traceLt t hz
    · rcases List.mem_map.1 (sp1 t hz) with ⟨e, he, rfl⟩
      exact h.bufLt e he

theorem cancel_buffer_shape (s : Sys) (id : Nat) :
    ∀ e2 ∈ (s.cancel id).buffer, ∃ e ∈ s.buffer, e2.futId = e.futId := by
  intro e2 he2
  simp only [Sys.cancel, List.mem_map] at he2
  rcases he2 with ⟨e, he, rfl⟩
  refine ⟨e, he, ?_⟩
  by_cases hc : e.futId = id && e.fut.isPending
  · simp [hc]
  · simp [hc]

theorem cancel_map_futId (s : Sys) (id : Nat) :
    (s.cancel id).buffer.map Entry.futId = s.buffer.map Entry.futId := by
  simp only [Sys.cancel, List.map_map]
  induction s.buffer with
  | nil => rfl
  | cons e rest ih =>
    simp only [List.map_cons, ih, Function.comp_apply]
    by_cases hc : e.futId = id && e.fut.isPending
    · simp [hc]
    · simp [hc]

theorem sysInv_cancel (s : Sys) (id : Nat) (h : SysInv s) : SysInv (s.cancel id) := by
  constructor
  · exact h.traceMono
  · rw [cancel_map_futId]
    exact h.bufInc
  · intro t ht e2 he2
    rcases cancel_buffer_shape s id e2 he2 with ⟨e, he, heq⟩
    rw [heq]
    exact h.traceBuf t ht e he
  · intro e2 he2
    rcases cancel_buffer_shape s id e2 he2 with ⟨e, he, heq⟩
    rw [show (s.cancel id).nextFut = s.nextFut from rfl, heq]
    exact h.bufLt e he
  · intro t ht
    exact h.traceLt t ht

theorem sysInv_step (s : Sys) (ev : Event) (h : SysInv s) : SysInv (stepEv s ev) := by
  rcases ev with ⟨d, fl, c, t⟩ | _ | id
  · exact sysInv_send s d fl c t h
  · by_cases hw : s.writerRegs ≠ 0
    · simpa [stepEv, hw] using sysInv_ready s h
    · simpa [stepEv, hw] using h
  · exact sysInv_cancel s id h

theorem sysInv_run (s : Sys) (evs : List Event) (h : SysInv s) :
    SysInv (runEvents s evs) := by
  induction evs generalizing s with
  | nil => simpa [runEvents] using h
  | cons ev evs ih =>
    simpa [runEvents] using ih (stepEv s ev) (sysInv_step s ev h)

/-- C1: in every run of the adapter (any interleaving of send calls,
write-readiness firings and cancellations), the future ids of the underlying
send attempts form a monotone sequence in submission order, no attempted id
ever exceeds the id of an entry still queued (a later entry is never
attempted before an earlier still-blocked one), and an entry whose attempt
would-blocks during a drain is reinserted at the head of the queue,
reproducing the original queue exactly. -/
theorem C1_fifo_order (ρ : List SendRes) (evs : List Event) :
    ((runEvents (initSys ρ) evs).trace.Pairwise (· ≤ ·)
      ∧ ∀ t ∈ (runEvents (initSys ρ) evs).trace,
          ∀ e ∈ (runEvents (initSys ρ) evs).buffer, t ≤ e.futId)
    ∧ ∀ (ρ2 : List SendRes) (e : Entry) (rest : List Entry),
        (sendReadyAux (SendRes.zmqErr EAGAIN :: ρ2) (e :: rest)).buffer
          = e :: rest := by
  constructor
  · have h := sysInv_run (initSys ρ) evs (sysInv_init ρ)
    exact ⟨h.traceMono, h.traceBuf⟩
  · intro ρ2 e rest
    simp [sendReadyAux]

/-- A settle that reports `InvalidStateError` leaves the future unchanged and
shows it was not pending. -/
theorem setRes_true {f f2 : FutState} {n : Nat} (h : f.setRes n = (f2, true)) :
    f2 = f ∧ f ≠ FutState.pending := by
  cases f with
  | pending => simp [FutState.setRes] at h
  | cancelled =>
    simp only [FutState.setRes, Prod.mk.injEq] at h
    obtain ⟨h1, -⟩ := h
    subst h1
    simp
  | fulfilled m =>
    simp only [FutState.setRes, Prod.mk.injEq] at h
    obtain ⟨h1, -⟩ := h
    subst h1
    simp
  | failed er =>
    simp only [FutState.setRes, Prod.mk.injEq] at h
    obtain ⟨h1, -⟩ := h
    subst h1
    simp

/-- A settle that succeeded was performed on a pending future. -/
theorem setRes_false {f f2 : FutState} {n : Nat}
    (h : f.setRes n = (f2, false)) :
    f = FutState.pending ∧ f2 = FutState.fulfilled n := by
  cases f with
  | pending =>
    simp only [FutState.setRes, Prod.mk.injEq] at h
    exact ⟨rfl, h.1.symm⟩
  | cancelled => simp [FutState.setRes] at h
  | fulfilled m => simp [FutState.setRes] at h
  | failed er => simp [FutState.setRes] at h

/-- `set_exception` on a non-pending future raises and changes nothing. -/
theorem setExc_of_ne_pending {f : FutState} (h : f ≠ FutState.pending)
    (er : PyErr) : f.setExc er = (f, true) := by
  cases f <;> simp_all [FutState.setExc]

/-- A successful `set_exception` was performed on a pending future and
produced the failed state. -/
theorem setExc_false {f f2 : FutState} {er : PyErr}
    (h : f.setExc er = (f2, false)) : f2 = FutState.failed er := by
  cases f <;> simp_all [FutState.setExc]

/-- A drain pass facing only successful sends fulfils every queued entry in
queue order, empties the buffer, deregisters the write callback and lets no
exception escape. -/
theorem sendReadyAux_all_ok (B : List Entry) (ns : List Nat) (ρr : List SendRes)
    (hlen : B.length = ns.length) (hp : ∀ e ∈ B, e.fut = FutState.pending) :
    sendReadyAux (ns.map SendRes.ok ++ ρr) B
      = ⟨[], ρr, B.map Entry.futId,
         List.zipWith (fun e n => { e with fut := FutState.fulfilled n }) B ns,
         true, false⟩ := by
  induction B generalizing ns with
  | nil =>
    cases ns with
    | nil => simp [sendReadyAux]
    | cons n ns => simp at hlen
  | cons e rest ih =>
    cases ns with
    | nil => simp at hlen
    | cons n ns =>
      have hped : e.fut = FutState.pending := hp e (List.mem_cons_self _ _)
      have hrec := ih ns (by simpa using hlen)
        (fun e2 he2 => hp e2 (List.mem_cons_of_mem _ he2))
      simp [sendReadyAux, hped, FutState.setRes, hrec]

/-- C2: a write-readiness firing drains every entry the transport will take:
with all queued futures pending, a run of successful transport responses
fulfils each entry in order within the one firing, empties the queue and
removes the write callback; and in the concrete three-entry scenario where
the transport accepts exactly two sends before would-blocking, entries 1 and
2 are fulfilled in that firing, entry 3 goes back to (stays at) the head of
the queue, and the write callback stays armed. -/
theorem C2_drain_within_firing :
    (∀ (B : List Entry) (ns : List Nat) (ρr : List SendRes),
        B.length = ns.length → (∀ e ∈ B, e.fut = FutState.pending) →
        sendReadyAux (ns.map SendRes.ok ++ ρr) B
          = ⟨[], ρr, B.map Entry.futId,
             List.zipWith (fun e n => { e with fut := FutState.fulfilled n }) B ns,
             true, false⟩)
    ∧ ∀ (s : Sys),
        s.buffer = [⟨0, FutState.pending, [1], 1, true, false⟩,
                    ⟨1, FutState.pending, [2], 1, true, false⟩,
                    ⟨2, FutState.pending, [3], 1, true, false⟩] →
        s.oracle = [SendRes.ok 10, SendRes.ok 20, SendRes.zmqErr EAGAIN] →
        s.writerRegs = 1 →
        (Socket._send_ready s).buffer = [⟨2, FutState.pending, [3], 1, true, false⟩]
        ∧ (Socket._send_ready s).retired
            = s.retired ++ [⟨0, FutState.fulfilled 10, [1], 1, true, false⟩,
                            ⟨1, FutState.fulfilled 20, [2], 1, true, false⟩]
        ∧ (Socket._send_ready s).writerRegs = 1 := by
  constructor
  · exact sendReadyAux_all_ok
  · intro s hb hρ hw
    refine ⟨?_, ?_, ?_⟩
    · show (sendReadyAux s.oracle s.buffer).buffer = _
      rw [hb, hρ]
      decide
    · show s.retired ++ (sendReadyAux s.oracle s.buffer).settled = _
      rw [hb, hρ]
      rfl
    · show (if (sendReadyAux s.oracle s.buffer).removedWriter then 0
            else s.writerRegs) = 1
      rw [hb, hρ, hw]
      decide

/-- A closed statement instantiating the full-drain half of
`C2_drain_within_firing` on a one-entry queue. -/
theorem C2_drain_witness :
    sendReadyAux [SendRes.ok 4] [⟨0, FutState.pending, [1], 1, true, false⟩]
      = ⟨[], [], [0], [⟨0, FutState.fulfilled 4, [1], 1, true, false⟩],
         true, false⟩ := by
  have h := C2_drain_within_firing.1
    [⟨0, FutState.pending, [1], 1, true, false⟩] [4] []
    (by decide) (by decide)
  simpa using h

/-- C7: a non-transient transport error on one queued send is confined to
that entry: with the leading entries succeeding and entry `efail` hit by a
`ZMQError` with errno other than `EAGAIN`, the drain fulfils the leading
entries, fails only `efail`'s handle, stops for the firing with the whole
remainder `R` still queued untouched (their handles as before), lets no
exception escape, leaves the write callback armed, and the adapter itself
(its transport handle) is never closed by a drain. -/
theorem C7_error_isolation (P R : List Entry) (efail : Entry) (ns : List Nat)
    (ρr : List SendRes) (errno : Nat)
    (hlen : P.length = ns.length)
    (hp : ∀ e ∈ P, e.fut = FutState.pending)
    (hf : efail.fut = FutState.pending)
    (he : errno ≠ EAGAIN) :
    (sendReadyAux (ns.map SendRes.ok ++ SendRes.zmqErr errno :: ρr)
        (P ++ efail :: R)
      = ⟨R, ρr, (P ++ [efail]).map Entry.futId,
         (List.zipWith (fun e n => { e with fut := FutState.fulfilled n }) P ns)
           ++ [{ efail with fut := FutState.failed (PyErr.zmq errno) }],
         false, false⟩)
    ∧ ∀ (s : Sys), (Socket._send_ready s).closed = s.closed := by
  constructor
  · induction P generalizing ns with
    | nil =>
      cases ns with
      | nil =>
        simp [sendReadyAux, hf, FutState.setExc, he]
      | cons n ns => simp at hlen
    | cons e rest ih =>
      cases ns with
      | nil => simp at hlen
      | cons n ns =>
        have hped : e.fut = FutState.pending := hp e (List.mem_cons_self _ _)
        have hrec := ih ns (by simpa using hlen)
          (fun e2 he2 => hp e2 (List.mem_cons_of_mem _ he2))
        simp [sendReadyAux, hped, FutState.setRes, hrec]
  · intro s
    rfl

/-- A closed statement instantiating `C7_error_isolation`: one successful
entry, then a failing one, with one more entry left queued. -/
theorem C7_error_isolation_witness :
    sendReadyAux [SendRes.ok 4, SendRes.zmqErr 5]
      [⟨0, FutState.pending, [1], 1, true, false⟩,
       ⟨1, FutState.pending, [2], 1, true, false⟩,
       ⟨2, FutState.pending, [3], 1, true, false⟩]
      = ⟨[⟨2, FutState.pending, [3], 1, true, false⟩], [], [0, 1],
         [⟨0, FutState.fulfilled 4, [1], 1, true, false⟩,
          ⟨1, FutState.failed (PyErr.zmq 5), [2], 1, true, false⟩],
         false, false⟩ := by
  have h := (C7_error_isolation
    [⟨0, FutState.pending, [1], 1, true, false⟩]
    [⟨2, FutState.pending, [3], 1, true, false⟩]
    ⟨1, FutState.pending, [2], 1, true, false⟩
    [4] [] 5 (by decide) (by decide) (by decide) (by decide)).1
  simpa using h

/-- C6 counterexample: a write-readiness firing in which the last queued
entry fails with a non-transient error pops that entry (emptying the queue)
and returns without reaching `remove_writer` — the queue is empty yet the
write callback is still registered, so the claim's "whenever the queue
becomes empty the callback is deregistered, after every firing including
error-ending ones" is false on the code. -/
theorem C6_writer_dereg_cex :
    ¬ ((Socket._send_ready
          ⟨1, [⟨0, FutState.pending, [1], 1, true, false⟩], 1, 0,
           [SendRes.zmqErr 5], [], [], 0, false⟩).buffer = []
        → (Socket._send_ready
          ⟨1, [⟨0, FutState.pending, [1], 1, true, false⟩], 1, 0,
           [SendRes.zmqErr 5], [], [], 0, false⟩).writerRegs = 0) := by
  decide

/-- C6 amended: at most one write registration is ever active (the loop's
`add_writer` replaces any previous registration for the descriptor); a
`send` call never leaves the callback armed with an empty queue; a drain
pass that empties the queue either reached `remove_writer` or was ended by
an error (a failed settle or an escaped exception) on the final entry — in
that error case the callback stays armed with an empty queue and the very
next firing deregisters it. -/
theorem C6_writer_dereg_amended :
    (∀ (ρ : List SendRes) (evs : List Event),
        (runEvents (initSys ρ) evs).writerRegs ≤ 1)
    ∧ (∀ (s : Sys) (d : SendArg) (fl : Nat) (c t : Bool),
        (s.buffer = [] → s.writerRegs = 0) →
        ((Socket.send s d fl c t).2.buffer = []
          → (Socket.send s d fl c t).2.writerRegs = 0))
    ∧ (∀ (ρ : List SendRes) (B : List Entry),
        (sendReadyAux ρ B).buffer = [] →
        (sendReadyAux ρ B).removedWriter = true
        ∨ (sendReadyAux ρ B).raised = true
        ∨ ∃ e ∈ (sendReadyAux ρ B).settled, ∃ er, e.fut = FutState.failed er)
    ∧ (∀ (s : Sys), s.buffer = [] → (Socket._send_ready s).writerRegs = 0) := by
  refine ⟨?_, ?_, ?_, ?_⟩
  · intro ρ evs
    have hstep : ∀ (s : Sys) (ev : Event), s.writerRegs ≤ 1
        → (stepEv s ev).writerRegs ≤ 1 := by
      intro s ev h
      rcases ev with ⟨d, fl, c, t⟩ | _ | id
      · show (Socket.send s d fl c t).2.writerRegs ≤ 1
        rcases d with b | _
        · simp only [Socket.send]
          split
          · exact h
          · split
            · split
              · split <;> exact h
              · split
                · exact h
                · split
                  · exact h
                  · exact Nat.le_refl 1
                · exact h
            · exact h
        · exact h
      · show (if s.writerRegs ≠ 0 then Socket._send_ready s else s).writerRegs ≤ 1
        split
        · show (if (sendReadyAux s.oracle s.buffer).removedWriter then 0
                else s.writerRegs) ≤ 1
          split
          · exact Nat.zero_le 1
          · exact h
        · exact h
      · exact h
    have hrun : ∀ (s : Sys) (evs2 : List Event), s.writerRegs ≤ 1
        → (runEvents s evs2).writerRegs ≤ 1 := by
      intro s evs2
      induction evs2 generalizing s with
      | nil => intro h; simpa [runEvents] using h
      | cons ev evs2 ih =>
        intro h
        simpa [runEvents] using ih (stepEv s ev) (hstep s ev h)
    exact hrun _ _ (by simp [initSys])
  · intro s d fl c t h
    rcases d with b | _
    · simp only [Socket.send]
      split
      · exact h
      · split
        · split
          · split <;> exact h
          · split
            · exact h
            · split
              · exact h
              · intro hemp
                exact absurd hemp (by simp)
            · exact h
        · intro hemp
          exact absurd hemp (by simp)
    · exact h
  · intro ρ B hemp
    induction B generalizing ρ with
    | nil => simp [sendReadyAux]
    | cons e rest ih =>
      rcases hr : ρ.headD (SendRes.zmqErr EAGAIN) with n | errno | code
      · rcases hs : e.fut.setRes n with ⟨f, rz⟩
        cases rz with
        | false =>
          simp only [sendReadyAux, hr, hs] at hemp ⊢
          rcases ih ρ.tail hemp with h | h | ⟨e2, he2, er, her⟩
          · exact Or.inl h
          · exact Or.inr (Or.inl h)
          · exact Or.inr (Or.inr ⟨e2, List.mem_cons_of_mem _ he2, er, her⟩)
        | true =>
          obtain ⟨rfl, hnp⟩ := setRes_true hs
          simp only [sendReadyAux, hr, hs,
            setExc_of_ne_pending hnp PyErr.invalidState] at hemp ⊢
          exact Or.inr (Or.inl trivial)
      · by_cases heag : errno = EAGAIN
        · simp only [sendReadyAux, hr, heag, ne_eq, not_true_eq_false,
            if_false] at hemp ⊢
          exact absurd hemp (by simp)
        · rcases hx : e.fut.setExc (PyErr.zmq errno) with ⟨f, rz⟩
          cases rz with
          | false =>
            simp only [sendReadyAux, hr, ne_eq, heag, not_false_eq_true,
              if_true, hx] at hemp ⊢
            refine Or.inr (Or.inr ⟨{ e with fut := f },
              List.mem_singleton_self _, PyErr.zmq errno, ?_⟩)
            simp [setExc_false hx]
          | true =>
            simp only [sendReadyAux, hr, ne_eq, heag, not_false_eq_true,
              if_true, hx] at hemp ⊢
            exact Or.inr (Or.inl trivial)
      · rcases hx : e.fut.setExc (PyErr.generic code) with ⟨f, rz⟩
        cases rz with
        | false =>
          simp only [sendReadyAux, hr, hx] at hemp ⊢
          refine Or.inr (Or.inr ⟨{ e with fut := f },
            List.mem_singleton_self _, PyErr.generic code, ?_⟩)
          simp [setExc_false hx]
        | true =>
          simp only [sendReadyAux, hr, hx] at hemp ⊢
          exact Or.inr (Or.inl trivial)
  · intro s hemp
    show (if (sendReadyAux s.oracle s.buffer).removedWriter then 0
          else s.writerRegs) = 0
    rw [hemp]
    simp [sendReadyAux]

/-- A closed statement applying `C6_writer_dereg_amended`: the healing
firing on an already empty queue deregisters the callback, and a concrete
send on an idle adapter keeps the no-armed-while-empty property. -/
theorem C6_writer_dereg_witness :
    (Socket._send_ready (initSys [])).writerRegs = 0
    ∧ ((Socket.send (initSys [SendRes.ok 3]) (SendArg.bytes [1]) 0 true
          false).2.buffer = []
        → (Socket.send (initSys [SendRes.ok 3]) (SendArg.bytes [1]) 0 true
          false).2.writerRegs = 0) := by
  refine ⟨C6_writer_dereg_amended.2.2.2 (initSys []) rfl, ?_⟩
  exact C6_writer_dereg_amended.2.1 (initSys [SendRes.ok 3])
    (SendArg.bytes [1]) 0 true false (fun _ => rfl)

/-- C9 counterexample: a drain pass whose head entry's completion handle was
cancelled still performs the underlying transport send for it (the attempt
list is non-empty), and fulfilling the cancelled handle then raises
`InvalidStateError` out of the callback — the claim that the drain removes
or no-ops a cancelled entry instead of attempting the transport call is
false on the code. -/
theorem C9_cancelled_send_cex :
    (sendReadyAux [SendRes.ok 7]
        [⟨5, FutState.cancelled, [9], 1, true, false⟩]).attempts = [5]
    ∧ (sendReadyAux [SendRes.ok 7]
        [⟨5, FutState.cancelled, [9], 1, true, false⟩]).attempts ≠ []
    ∧ (sendReadyAux [SendRes.ok 7]
        [⟨5, FutState.cancelled, [9], 1, true, false⟩]).raised = true := by
  decide

/-- C9 amended: `_send_ready` never inspects cancellation: the head entry is
popped and its transport send attempted whatever the state of its handle —
and when that attempt succeeds, the `set_result` on the cancelled handle
raises `InvalidStateError`, which escapes the readiness callback, with the
entry dropped from the queue and its handle left cancelled. -/
theorem C9_cancelled_send_amended (ρ : List SendRes) (e : Entry)
    (rest : List Entry) (hc : e.fut = FutState.cancelled) :
    (∃ l, (sendReadyAux ρ (e :: rest)).attempts = e.futId :: l)
    ∧ ∀ (n : Nat) (ρ2 : List SendRes), ρ = SendRes.ok n :: ρ2 →
        sendReadyAux ρ (e :: rest) = ⟨rest, ρ2, [e.futId], [e], false, true⟩ := by
  constructor
  · rcases hr : ρ.headD (SendRes.zmqErr EAGAIN) with n | errno | code
    · rcases hs : e.fut.setRes n with ⟨f, rz⟩
      cases rz with
      | false =>
        obtain ⟨hped, -⟩ := setRes_false hs
        rw [hc] at hped
        exact absurd hped (by decide)
      | true =>
        rcases hx : f.setExc PyErr.invalidState with ⟨f2, rz2⟩
        refine ⟨[], ?_⟩
        simp only [sendReadyAux, hr, hs, hx]
    · by_cases heag : errno = EAGAIN
      · refine ⟨[], ?_⟩
        simp only [sendReadyAux, hr, heag, ne_eq, not_true_eq_false, if_false]
      · rcases hx : e.fut.setExc (PyErr.zmq errno) with ⟨f, rz⟩
        refine ⟨[], ?_⟩
        simp only [sendReadyAux, hr, ne_eq, heag, not_false_eq_true, if_true, hx]
    · rcases hx : e.fut.setExc (PyErr.generic code) with ⟨f, rz⟩
      refine ⟨[], ?_⟩
      simp only [sendReadyAux, hr, hx]
  · intro n ρ2 hρ
    subst hρ
    cases e with
    | mk id f d fl c t =>
      simp only [Entry.fut] at hc
      subst hc
      simp [sendReadyAux, FutState.setRes, FutState.setExc]

/-- A closed statement applying `C9_cancelled_send_amended` at a concrete
cancelled entry and a succeeding transport. -/
theorem C9_cancelled_send_witness :
    sendReadyAux [SendRes.ok 7]
        [⟨5, FutState.cancelled, [9], 1, true, false⟩,
         ⟨6, FutState.pending, [8], 1, true, false⟩]
      = ⟨[⟨6, FutState.pending, [8], 1, true, false⟩], [], [5],
         [⟨5, FutState.cancelled, [9], 1, true, false⟩], false, true⟩ :=
  (C9_cancelled_send_amended [SendRes.ok 7]
    ⟨5, FutState.cancelled, [9], 1, true, false⟩
    [⟨6, FutState.pending, [8], 1, true, false⟩] rfl).2 7 [] rfl

/-- C3 counterexample: closing an adapter that has one queued send (its
handle pending) and armed read and write registrations leaves the handle
pending and both registrations in place — the claim that close settles all
outstanding handles and releases armed registrations is false on the code,
which defines no close override. -/
theorem C3_close_cex :
    (Socket.close ⟨1, [⟨0, FutState.pending, [1], 1, true, false⟩], 1, 1,
        [], [], [], 0, false⟩).buffer.map Entry.fut = [FutState.pending]
    ∧ (Socket.close ⟨1, [⟨0, FutState.pending, [1], 1, true, false⟩], 1, 1,
        [], [], [], 0, false⟩).writerRegs = 1
    ∧ (Socket.close ⟨1, [⟨0, FutState.pending, [1], 1, true, false⟩], 1, 1,
        [], [], [], 0, false⟩).readerRegs = 1 := by
  decide

/-- C3 amended: closing is idempotent, but — the repository defining no
close override — it only closes the underlying transport handle: the
pending-write queue and every outstanding completion handle are left
exactly as they were, and neither the write nor the read readiness
registration is released. -/
theorem C3_close_amended (s : Sys) :
    Socket.close (Socket.close s) = Socket.close s
    ∧ (Socket.close s).closed = true
    ∧ (Socket.close s).buffer = s.buffer
    ∧ (Socket.close s).retired = s.retired
    ∧ (Socket.close s).writerRegs = s.writerRegs
    ∧ (Socket.close s).readerRegs = s.readerRegs :=
  ⟨rfl, rfl, rfl, rfl, rfl, rfl⟩

/-- C10: calling `send` with a non-bytes payload fails the
`assert isinstance(data, bytes)` guard before anything else happens: the
whole adapter state — queue, registrations, attempt trace, future
numbering — is untouched. -/
theorem C10_assert_bytes (s : Sys) (fl : Nat) (c t : Bool) :
    Socket.send s SendArg.notBytes fl c t = (SendRet.assertFail, s)
    ∧ (Socket.send s SendArg.notBytes fl c t).2.buffer = s.buffer
    ∧ (Socket.send s SendArg.notBytes fl c t).2.trace = s.trace
    ∧ (Socket.send s SendArg.notBytes fl c t).2.nextFut = s.nextFut := by
  exact ⟨rfl, rfl, rfl, rfl⟩

/-- A firing driver on an operation with no active registration does
nothing. -/
theorem recvFirings_done (fuel : Nat) (s : RecvSt) (h : s.readerRegs = 0) :
    recvFirings fuel s = s := by
  cases fuel with
  | zero => rfl
  | succ f => simp [recvFirings, h]

/-- One readiness firing on a pending operation whose next transport
response is a success: the callback deregisters, the payload is received and
the future fulfilled. -/
theorem recv_fire_ok (s : RecvSt) (d : Bytes) (ρr : List RecvRes)
    (hp : s.fut = RFut.pending) (ho : s.oracle = RecvRes.ok d :: ρr) :
    Socket._recv true s
      = ⟨RFut.fulfilled d, 0, ρr, s.attempts + 1, s.regs, s.removals + 1,
         s.raised⟩ := by
  simp [Socket._recv, hp, ho, RFut.isCancelled, RFut.setRes]

/-- One readiness firing on a pending operation whose next transport
response is a would-block: the callback deregisters, attempts once and
re-arms. -/
theorem recv_fire_eagain (s : RecvSt) (ρr : List RecvRes)
    (hp : s.fut = RFut.pending)
    (ho : s.oracle = RecvRes.zmqErr EAGAIN :: ρr) :
    Socket._recv true s
      = ⟨RFut.pending, 1, ρr, s.attempts + 1, s.regs + 1, s.removals + 1,
         s.raised⟩ := by
  simp [Socket._recv, hp, ho, RFut.isCancelled]

/-- One readiness firing on an operation whose future was cancelled:
deregister and return — no transport call, no re-registration, nothing
settled. -/
theorem recv_fire_cancelled (s : RecvSt) (hc : s.fut = RFut.cancelled) :
    Socket._recv true s
      = { s with readerRegs := 0, removals := s.removals + 1 } := by
  simp [Socket._recv, hc, RFut.isCancelled]

/-- Driving an armed pending receive through `m` would-blocks and then a
success: `m + 1` further attempts, `m` further registrations and `m + 1`
removals, ending fulfilled with the callback released. -/
theorem recvFirings_pending (m : Nat) (d : Bytes) (ρr : List RecvRes)
    (fuel : Nat) (a r rm : Nat) (rz : Bool) (hf : m + 1 ≤ fuel) :
    recvFirings fuel
        ⟨RFut.pending, 1,
         List.replicate m (RecvRes.zmqErr EAGAIN) ++ RecvRes.ok d :: ρr,
         a, r, rm, rz⟩
      = ⟨RFut.fulfilled d, 0, ρr, a + (m + 1), r + m, rm + (m + 1), rz⟩ := by
  induction m generalizing fuel a r rm with
  | zero =>
    rcases fuel with _ | f
    · omega
    · rw [show recvFirings (f + 1)
            ⟨RFut.pending, 1,
             List.replicate 0 (RecvRes.zmqErr EAGAIN) ++ RecvRes.ok d :: ρr,
             a, r, rm, rz⟩
          = recvFirings f
            ⟨RFut.fulfilled d, 0, ρr, a + 1, r, rm + 1, rz⟩ from by
        simp [recvFirings, Socket._recv, RFut.isCancelled, RFut.setRes]]
      rw [recvFirings_done f _ rfl]
      simp
  | succ m ih =>
    rcases fuel with _ | f
    · omega
    · rw [show recvFirings (f + 1)
            ⟨RFut.pending, 1,
             List.replicate (m + 1) (RecvRes.zmqErr EAGAIN)
               ++ RecvRes.ok d :: ρr,
             a, r, rm, rz⟩
          = recvFirings f
            ⟨RFut.pending, 1,
             List.replicate m (RecvRes.zmqErr EAGAIN) ++ RecvRes.ok d :: ρr,
             a + 1, r + 1, rm + 1, rz⟩ from by
        simp [recvFirings, Socket._recv, RFut.isCancelled,
          List.replicate_succ]]
      rw [ih f (a + 1) (r + 1) (rm + 1) (by omega)]
      simp only [RecvSt.mk.injEq]
      refine ⟨trivial, trivial, trivial, by omega, by omega, by omega,
        trivial⟩

/-- C4 counterexample: a receive (flags 0) whose transport would-blocks
exactly once before succeeding (`k = 1`) performs 2 underlying attempts and
succeeds — but registers a read-readiness callback 0 times, not the claimed
k = 1 times, because after the first would-block the code calls
`_recv(fut, False, ...)` directly, making a second immediate attempt before
any registration. -/
theorem C4_recv_counts_cex :
    (Socket.recv 0 true false [RecvRes.zmqErr EAGAIN, RecvRes.ok [7]]
        1).2.regs = 0
    ∧ ¬ ((Socket.recv 0 true false [RecvRes.zmqErr EAGAIN, RecvRes.ok [7]]
        1).2.regs = 1)
    ∧ (Socket.recv 0 true false [RecvRes.zmqErr EAGAIN, RecvRes.ok [7]]
        1).2.attempts = 2
    ∧ (Socket.recv 0 true false [RecvRes.zmqErr EAGAIN, RecvRes.ok [7]]
        1).2.fut = RFut.fulfilled [7] := by
  decide

/-- C4 amended: a receive without no-wait flags whose transport yields
`WOULD_BLOCK` exactly `k` times before succeeding performs exactly `k + 1`
underlying receive attempts, but exactly `k - 1` read-readiness
registrations (so 0 for both `k = 0` and `k = 1`) and `k - 1` removals: the
adapter makes a second immediate attempt via a direct `_recv` call after the
first would-block, before any registration.  For `k = 0` the payload is
returned synchronously with no callback ever registered; for `k ≥ 1` the
operation suspends and ends fulfilled. -/
theorem C4_recv_counts_amended (k : Nat) (d : Bytes) :
    (Socket.recv 0 true false
        (List.replicate k (RecvRes.zmqErr EAGAIN) ++ [RecvRes.ok d])
        k).2.attempts = k + 1
    ∧ (Socket.recv 0 true false
        (List.replicate k (RecvRes.zmqErr EAGAIN) ++ [RecvRes.ok d])
        k).2.regs = k - 1
    ∧ (Socket.recv 0 true false
        (List.replicate k (RecvRes.zmqErr EAGAIN) ++ [RecvRes.ok d])
        k).2.removals = k - 1
    ∧ (k = 0 →
        (Socket.recv 0 true false
          (List.replicate k (RecvRes.zmqErr EAGAIN) ++ [RecvRes.ok d])
          k).1 = RecvRet.val d)
    ∧ (1 ≤ k →
        (Socket.recv 0 true false
          (List.replicate k (RecvRes.zmqErr EAGAIN) ++ [RecvRes.ok d])
          k).1 = RecvRet.deferred
        ∧ (Socket.recv 0 true false
          (List.replicate k (RecvRes.zmqErr EAGAIN) ++ [RecvRes.ok d])
          k).2.fut = RFut.fulfilled d) := by
  match k with
  | 0 =>
    simp [Socket.recv, NOBLOCK]
  | 1 =>
    simp [Socket.recv, Socket._recv, recvFirings, NOBLOCK, RFut.isCancelled,
      RFut.setRes]
  | m + 2 =>
    have hstep : Socket.recv 0 true false
        (List.replicate (m + 2) (RecvRes.zmqErr EAGAIN) ++ [RecvRes.ok d])
        (m + 2)
        = (RecvRet.deferred,
           recvFirings (m + 2)
             ⟨RFut.pending, 1,
              List.replicate m (RecvRes.zmqErr EAGAIN) ++ [RecvRes.ok d],
              2, 1, 0, false⟩) := by
      simp [Socket.recv, Socket._recv, NOBLOCK, RFut.isCancelled,
        List.replicate_succ]
    rw [hstep, recvFirings_pending m d [] (m + 2) 2 1 0 false (by omega)]
    refine ⟨?_, ?_, ?_, ?_, fun _ => ⟨rfl, rfl⟩⟩
    · show 2 + (m + 1) = m + 2 + 1
      omega
    · show 1 + m = m + 2 - 1
      omega
    · show 0 + (m + 1) = m + 2 - 1
      omega
    · intro h
      omega

/-- A closed statement applying `C4_recv_counts_amended` at `k = 2`: three
attempts, one registration. -/
theorem C4_recv_counts_witness :
    (Socket.recv 0 true false
        (List.replicate 2 (RecvRes.zmqErr EAGAIN) ++ [RecvRes.ok [5]])
        2).2.attempts = 3
    ∧ (Socket.recv 0 true false
        (List.replicate 2 (RecvRes.zmqErr EAGAIN) ++ [RecvRes.ok [5]])
        2).2.regs = 1
    ∧ (Socket.recv 0 true false
        (List.replicate 2 (RecvRes.zmqErr EAGAIN) ++ [RecvRes.ok [5]])
        2).1 = RecvRet.deferred := by
  have h := C4_recv_counts_amended 2 [5]
  exact ⟨h.1, h.2.1, (h.2.2.2.2 (by omega)).1⟩

/-- C5: if the receive's completion handle is cancelled while the read
callback is armed, the next readiness firing removes the registration,
observes the cancellation and returns without any underlying receive
attempt; the handle's terminal state stays cancelled, the transport oracle
is untouched (no further transport call ever occurs for the operation), and
with the registration gone no later firing can do anything either. -/
theorem C5_cancel_skips_retry (fuel : Nat) (s : RecvSt)
    (hc : s.fut = RFut.cancelled) (hr : s.readerRegs = 1) (hf : 1 ≤ fuel) :
    recvFirings fuel s = { s with readerRegs := 0, removals := s.removals + 1 }
    ∧ (recvFirings fuel s).fut = RFut.cancelled
    ∧ (recvFirings fuel s).attempts = s.attempts
    ∧ (recvFirings fuel s).oracle = s.oracle
    ∧ (recvFirings fuel s).readerRegs = 0 := by
  rcases fuel with _ | f
  · omega
  · have h1 : recvFirings (f + 1) s = recvFirings f (Socket._recv true s) := by
      simp [recvFirings, hr]
    have h2 : recvFirings (f + 1) s
        = { s with readerRegs := 0, removals := s.removals + 1 } := by
      rw [h1, recv_fire_cancelled s hc, recvFirings_done f _ rfl]
    refine ⟨h2, ?_, ?_, ?_, ?_⟩ <;> rw [h2] <;> simp [hc]

/-- A closed statement applying `C5_cancel_skips_retry`: a cancelled armed
receive facing an available message never reads it. -/
theorem C5_cancel_witness :
    recvFirings 1 ⟨RFut.cancelled, 1, [RecvRes.ok [3]], 1, 0, 0, false⟩
      = ⟨RFut.cancelled, 0, [RecvRes.ok [3]], 1, 0, 1, false⟩ := by
  have h := C5_cancel_skips_retry 1
    ⟨RFut.cancelled, 1, [RecvRes.ok [3]], 1, 0, 0, false⟩ rfl rfl (by decide)
  simpa using h.1

/-- C8 counterexample: `send` with an empty bytes payload returns bare
`None` — no completion handle — and `send` whose immediate fast-path attempt
fails with a non-transient `ZMQError` also returns bare `None` (the error is
set on a future that is never handed to the caller), so the claim that every
send call returns a completion handle is false on the code. -/
theorem C8_send_returns_cex :
    (Socket.send (initSys []) (SendArg.bytes []) 0 true false).1
      = SendRet.noneRet
    ∧ (∀ id, (Socket.send (initSys []) (SendArg.bytes []) 0 true false).1
        ≠ SendRet.futRet id)
    ∧ (Socket.send (initSys [SendRes.zmqErr 5]) (SendArg.bytes [1]) 0 true
        false).1 = SendRet.noneRet := by
  refine ⟨rfl, ?_, rfl⟩
  intro id h
  simp [Socket.send, initSys] at h

/-- C8 amended: `send(payload, flags)` never blocks and returns the freshly
created completion handle in the queueing cases and the fast-path success
case, but not always: an empty payload returns `None` (a no-op with no
handle), a non-NOBLOCK fast-path attempt failing with a non-transient
`ZMQError` records the error on a handle that is never returned and yields
`None`, and a NOBLOCK-flagged fast-path `ZMQError` propagates to the caller
as an exception. -/
theorem C8_send_returns_amended (s : Sys) (b : Bytes) (fl : Nat) (c t : Bool)
    (hb : b ≠ []) :
    (s.buffer ≠ [] →
      (Socket.send s (SendArg.bytes b) fl c t).1 = SendRet.futRet s.nextFut)
    ∧ (∀ (n : Nat) (ρ2 : List SendRes), s.buffer = [] →
        s.oracle = SendRes.ok n :: ρ2 →
        (Socket.send s (SendArg.bytes b) fl c t).1 = SendRet.futRet s.nextFut)
    ∧ (∀ (errno : Nat) (ρ2 : List SendRes), s.buffer = [] →
        fl &&& NOBLOCK = 0 → s.oracle = SendRes.zmqErr errno :: ρ2 →
        errno ≠ EAGAIN →
        (Socket.send s (SendArg.bytes b) fl c t).1 = SendRet.noneRet
        ∧ (Socket.send s (SendArg.bytes b) fl c t).2.retired
            = s.retired ++ [⟨s.nextFut, FutState.failed (PyErr.zmq errno), b,
                fl ||| NOBLOCK, c, t⟩])
    ∧ (∀ (ρ2 : List SendRes), s.buffer = [] → fl &&& NOBLOCK = 0 →
        s.oracle = SendRes.zmqErr EAGAIN :: ρ2 →
        (Socket.send s (SendArg.bytes b) fl c t).1 = SendRet.futRet s.nextFut
        ∧ (Socket.send s (SendArg.bytes b) fl c t).2.buffer
            = [⟨s.nextFut, FutState.pending, b, fl ||| NOBLOCK, c, t⟩]
        ∧ (Socket.send s (SendArg.bytes b) fl c t).2.writerRegs = 1)
    ∧ (∀ (errno : Nat) (ρ2 : List SendRes), s.buffer = [] →
        fl &&& NOBLOCK ≠ 0 → s.oracle = SendRes.zmqErr errno :: ρ2 →
        (Socket.send s (SendArg.bytes b) fl c t).1
          = SendRet.raisedErr (PyErr.zmq errno)) := by
  refine ⟨?_, ?_, ?_, ?_, ?_⟩
  · intro hbuf
    simp [Socket.send, hb, hbuf]
  · intro n ρ2 hbuf ho
    by_cases hfl : fl &&& NOBLOCK ≠ 0 <;>
      simp [Socket.send, hb, hbuf, ho, hfl]
  · intro errno ρ2 hbuf hfl ho hne
    constructor <;> simp [Socket.send, hb, hbuf, hfl, ho, hne]
  · intro ρ2 hbuf hfl ho
    refine ⟨?_, ?_, ?_⟩ <;> simp [Socket.send, hb, hbuf, hfl, ho]
  · intro errno ρ2 hbuf hfl ho
    simp [Socket.send, hb, hbuf, hfl, ho]

/-- A closed statement applying `C8_send_returns_amended`: the fast-path
success returns the handle. -/
theorem C8_send_returns_witness :
    (Socket.send (initSys [SendRes.ok 3]) (SendArg.bytes [1]) 0 true
        false).1 = SendRet.futRet 0 := by
  have h := (C8_send_returns_amended (initSys [SendRes.ok 3]) [1] 0 true false
    (by decide)).2.1 3 [] rfl rfl
  simpa using h

end Zmqtulip
